import Mathlib

/-
Shallow embedding of the LMAY toolchain's validation core: the reference
validator (cycle and orphan detection), the hierarchy validator (tree build,
depth checks, depth-distribution analysis), the YAML/schema validators, the
result aggregation and CLI exit code, and the maintenance engine's
obsolescence analyzer.

Modelling conventions:
- JS objects parsed from YAML become the `Doc` / `Item` / `Hier` structures;
  absent keys are `Option.none`, and JS truthiness tests on them are modelled
  explicitly (`none` and, where relevant, `0` / `""` are falsy).
- Filesystem and path primitives that the validators only consume
  (path.resolve, path.relative, fs.existsSync, file contents) are passed in
  as explicit function parameters; `resolve p r` stands for
  `path.resolve(path.dirname(p), r)` throughout.
- Findings are records carrying the machine-stable `type` tag plus the fields
  the claims mention (`file`, `path`, `level`, `cycle`); human-readable
  message strings are not modelled.
- Thrown JS exceptions become `Except.error`; a `try { ... } catch` block
  becomes a `match` on the `Except` value.
-/

/-- One finding (error or warning) as pushed by the validators: the stable
`type` tag plus the location fields used by the claims. -/
structure Finding where
  type : String
  file : String := ""
  path : String := ""
  level : Nat := 0
  cycle : List String := []
deriving DecidableEq, Repr

/-- One structure-map entry of an LMAY document (`structure.<name>` in the
YAML): the fields read by the validators. Absent keys are `none`. -/
structure Item where
  path : Option String := none
  type : Option String := none
  file_count : Option Int := none
  primary_language : Option String := none
  lmay_file : Option String := none
deriving DecidableEq, Repr

/-- Declared hierarchy metadata of a document (`hierarchy.depth`,
`hierarchy.parent`). -/
structure Hier where
  depth : Option Int := none
  parent : Option String := none
deriving DecidableEq, Repr

/-- A parsed LMAY document, restricted to the fields the reference and
hierarchy validators read: the structure map (an ordered list of
name/entry pairs, mirroring `Object.entries(data.structure)`) and the
optional hierarchy metadata. A document without a `structure` key is
modelled by an empty list (the JS guard `data && data.structure` then skips
the same loops). -/
structure Doc where
  struct : List (String × Item) := []
  hierarchy : Option Hier := none
deriving DecidableEq, Repr

/-- Association-list lookup, mirroring `Map.get` / keyed object access on the
loaded-file map (first binding wins, as in a JS `Map`). -/
def lookupMap (m : List (String × Doc)) (k : String) : Option Doc :=
  match m with
  | [] => none
  | (k', v) :: rest => if k' = k then some v else lookupMap rest k

/-- JS truthiness of an optional number (absent and `0` are falsy). -/
def truthyInt (x : Option Int) : Bool :=
  match x with
  | none => false
  | some n => decide (n ≠ 0)

/-- JS truthiness of an optional string (absent and `""` are falsy). -/
def truthyStr (x : Option String) : Bool :=
  match x with
  | none => false
  | some s => decide (s ≠ "")

/-
Aggregated results (validator.js): `mergeResults`, `finalizeResults` and the
CLI exit code `process.exit(results.valid ? 0 : 1)` (cli.js line 117).
-/

/-- Per-validator summary entry stored in `results.summary`. -/
structure SummaryEntry where
  errorCount : Nat := 0
  warningCount : Nat := 0
  valid : Bool := true
deriving DecidableEq, Repr

/-- The report shape returned by each validator's `generateReport`. -/
structure Report where
  valid : Bool
  errorCount : Nat
  warningCount : Nat
  errors : List Finding
  warnings : List Finding
deriving Repr

/-- The shape of each validator's `generateReport()` output: `valid` is
`errors.length === 0`. -/
def mkReport (errors warnings : List Finding) : Report :=
  { valid := errors.length == 0
    errorCount := errors.length
    warningCount := warnings.length
    errors := errors
    warnings := warnings }

/-- The orchestrator's `this.results` object. -/
structure Results where
  valid : Bool := false
  errors : List Finding := []
  warnings : List Finding := []
  summary : List (String × SummaryEntry) := []
deriving Repr

/-- The freshly reset results object (`resetResults`). -/
def emptyResults : Results := {}

/-- LMAYValidator.mergeResults (validator.js lines 293-301): concatenates a
validator report into the aggregate and records its per-validator summary. -/
def mergeResults (r : Results) (report : Report) (validatorType : String) : Results :=
  { r with
    errors := r.errors ++ report.errors
    warnings := r.warnings ++ report.warnings
    summary := r.summary ++
      [(validatorType,
        { errorCount := report.errorCount
          warningCount := report.warningCount
          valid := report.valid })] }

/-- LMAYValidator.finalizeResults (validator.js lines 306-315):
`valid = errors.length === 0` and the `total` summary entry. -/
def finalizeResults (r : Results) : Results :=
  let valid := r.errors.length == 0
  { r with
    valid := valid
    summary := r.summary ++
      [("total",
        { errorCount := r.errors.length
          warningCount := r.warnings.length
          valid := valid })] }

/-- The CLI exit code (cli.js line 117): `process.exit(results.valid ? 0 : 1)`. -/
def exitCode (results : Results) : Nat :=
  if results.valid then 0 else 1

/-- Folding a run's validator reports into the aggregate, as validateProject
does by calling mergeResults once per validator. -/
def mergeAll (reports : List (String × Report)) : Results :=
  reports.foldl (fun acc nr => mergeResults acc nr.2 nr.1) emptyResults

/-
SchemaValidator.validateStructureItem (schema-validator.js lines 291-323).
`path.isAbsolute` is modelled for POSIX paths.
-/

/-- POSIX `path.isAbsolute`. -/
def isAbsolutePath (p : String) : Bool := p.startsWith "/"

/-- SchemaValidator.validateStructureItem: returns (errors, warnings) for one
structure entry. The file-count check is the JS condition
`info.type === 'file' && info.file_count && info.file_count !== 1`:
a falsy `file_count` (absent or `0`) short-circuits the `&&` chain. -/
def validateStructureItem (name : String) (info : Item) (filePath : String) :
    List Finding × List Finding :=
  let basePath := "/structure/" ++ name
  let absWarnings :=
    match info.path with
    | some p =>
      if isAbsolutePath p then
        [{ type := "absolute_path_in_structure", file := filePath, path := basePath ++ "/path" }]
      else []
    | none => []
  let fileCountErrors :=
    if info.type = some "file" ∧ truthyInt info.file_count = true ∧ info.file_count ≠ some 1 then
      [{ type := "invalid_file_count", file := filePath, path := basePath ++ "/file_count" }]
    else []
  let langWarnings :=
    if truthyStr info.primary_language = true ∧ info.type = some "file" then
      [{ type := "language_on_file", file := filePath, path := basePath ++ "/primary_language" }]
    else []
  (fileCountErrors, absWarnings ++ langWarnings)

/-
ReferenceValidator.loadLMAYFile (reference-validator.js lines 57-75): the
per-session cache. The model threads the validator state and returns, as a
third component, the list of file reads performed (the `fs.readFileSync`
calls), so that absence of re-reading is expressible. `readParse` combines
the read and the `yaml.load` parse; a thrown read or parse error is its
`Except.error` case.
-/

/-- The mutable state of a ReferenceValidator instance: accumulated errors
and warnings and the `fileMap` cache of loaded documents. -/
structure RVState where
  errors : List Finding := []
  warnings : List Finding := []
  fileMap : List (String × Doc) := []
deriving Repr

/-- ReferenceValidator.loadLMAYFile: returns the cached document without any
read when the path is already in `fileMap`; otherwise reads and parses,
caching the result on success and pushing a `file_load_error` on failure. -/
def loadLMAYFile (readParse : String → Except String Doc) (st : RVState) (filePath : String) :
    Option Doc × RVState × List String :=
  match lookupMap st.fileMap filePath with
  | some cached => (some cached, st, [])
  | none =>
    match readParse filePath with
    | Except.ok data =>
      (some data, { st with fileMap := st.fileMap ++ [(filePath, data)] }, [filePath])
    | Except.error _ =>
      (none, { st with errors := st.errors ++ [{ type := "file_load_error", file := filePath }] },
        [filePath])

/-- Lookup in an appended cache: appending a fresh binding does not change
earlier lookups, and the fresh key is found. -/
theorem lookupMap_append_single (m : List (String × Doc)) (p : String) (d : Doc)
    (h : lookupMap m p = none) : lookupMap (m ++ [(p, d)]) p = some d := by
  induction m with
  | nil => simp [lookupMap]
  | cons hd tl ih =>
    simp only [lookupMap, List.cons_append] at h ⊢
    by_cases hk : hd.1 = p
    · simp [hk] at h
    · simpa [hk] using ih (by simpa [hk] using h)

/-
ReferenceValidator.detectCircularReferences /
detectCircularReferencesRecursive (reference-validator.js lines 289-335).

The recursive helper is declared as

  detectCircularReferencesRecursive(filePath, visited, recursionStack, path)

so inside its body the identifier `path` is the fourth parameter (the array
of document paths accumulated so far), shadowing the module-level
`const path = require('path')`. The loop body at line 311 therefore
evaluates `path.resolve(path.dirname(filePath), itemInfo.lmay_file)` with
`path` bound to an Array, and `path.dirname` is `undefined`: the call throws
a TypeError before the recursion-stack test at line 313 runs. Everything
after line 311 in the loop body (the `circular_reference` push at lines
315-321 and the recursive descent at lines 323-329) is unreachable.
-/

/-- Evaluation of `path.resolve(path.dirname(filePath), itemInfo.lmay_file)`
at reference-validator.js line 311, where `path` is the shadowing Array
parameter: always throws. -/
def jsPathResolveOnArray : Except String String :=
  Except.error "TypeError: path.dirname is not a function"

/-- The `for (const [itemName, itemInfo] of Object.entries(data.structure))`
loop of detectCircularReferencesRecursive (lines 309-331). Entries without
an `lmay_file` are skipped; the first entry carrying one evaluates
`jsPathResolveOnArray` (line 311), so the loop aborts there and the
finding-pushing and recursive branches are unreachable (hence no findings
and no recursion appear below the bind). -/
def cycleEntriesLoop : List (String × Item) → Except String (List Finding)
  | [] => Except.ok []
  | (_, itemInfo) :: rest =>
    match itemInfo.lmay_file with
    | none => cycleEntriesLoop rest
    | some _ =>
      match jsPathResolveOnArray with
      | Except.error e => Except.error e
      | Except.ok _referencedPath => cycleEntriesLoop rest

/-- ReferenceValidator.detectCircularReferencesRecursive (lines 303-335):
marks the file visited and walks its structure entries. The recursion-stack
bookkeeping is dropped from the model because its only reader (line 313) is
unreachable. Returns the updated visited set and the findings pushed by this
call. -/
def detectCircularReferencesRecursive (fileMap : List (String × Doc)) (filePath : String)
    (visited : List String) : Except String (List String × List Finding) :=
  let visited' := if filePath ∈ visited then visited else filePath :: visited
  match lookupMap fileMap filePath with
  | none => Except.ok (visited', [])
  | some data =>
    match cycleEntriesLoop data.struct with
    | Except.error e => Except.error e
    | Except.ok findings => Except.ok (visited', findings)

/-- The `for (const filePath of this.fileMap.keys())` loop of
detectCircularReferences (lines 293-297): runs the recursive helper on every
not-yet-visited key, accumulating findings; an exception escapes the loop
(there is no try/catch in this method). -/
def detectCircularReferencesGo (fileMap : List (String × Doc)) :
    List String → List String → Except String (List Finding)
  | [], _ => Except.ok []
  | k :: ks, visited =>
    if k ∈ visited then detectCircularReferencesGo fileMap ks visited
    else
      match detectCircularReferencesRecursive fileMap k visited with
      | Except.error e => Except.error e
      | Except.ok (visited', findings) =>
        match detectCircularReferencesGo fileMap ks visited' with
        | Except.error e => Except.error e
        | Except.ok rest => Except.ok (findings ++ rest)

/-- ReferenceValidator.detectCircularReferences (lines 289-298). -/
def detectCircularReferences (fileMap : List (String × Doc)) :
    Except String (List Finding) :=
  detectCircularReferencesGo fileMap (fileMap.map Prod.fst) []

/-- The call site inside validateProject's try/catch (lines 31-51): a thrown
exception is converted into a single `validation_error` finding; otherwise
the findings pushed by the traversal stand. -/
def runCircularReferenceCheck (fileMap : List (String × Doc)) : List Finding :=
  match detectCircularReferences fileMap with
  | Except.ok findings => findings
  | Except.error _ => [{ type := "validation_error" }]

/-
ReferenceValidator.detectOrphanFiles (reference-validator.js lines 340-372).
`allLMAYFiles` is the recursive-scan discovery list (findAllLMAYFiles),
`rootLmay` is `path.join(projectPath, 'root.lmay')`, `fileMap` the loaded
documents, and `resolve p r` stands for
`path.resolve(path.dirname(p), r)` (line 355).
-/

/-- The `referencedFiles` set built at lines 342-360: the root file (when it
was discovered) plus every `lmay_file` target of every loaded document,
resolved against the referencing document's directory. -/
def referencedFilesOf (allLMAYFiles : List String) (rootLmay : String)
    (fileMap : List (String × Doc)) (resolve : String → String → String) : List String :=
  (if rootLmay ∈ allLMAYFiles then [rootLmay] else []) ++
  fileMap.flatMap (fun fd =>
    fd.2.struct.filterMap (fun ent => ent.2.lmay_file.map (resolve fd.1)))

/-- ReferenceValidator.detectOrphanFiles: every discovered file not in the
referenced set gets one `orphan_lmay_file` warning. -/
def detectOrphanFiles (allLMAYFiles : List String) (rootLmay : String)
    (fileMap : List (String × Doc)) (resolve : String → String → String) : List Finding :=
  (allLMAYFiles.filter
      (fun f => decide (f ∉ referencedFilesOf allLMAYFiles rootLmay fileMap resolve))).map
    (fun f => { type := "orphan_lmay_file", file := f })

/-- A file is directly referenced when some loaded document's structure map
carries an `lmay_file` entry resolving to it. -/
def directlyReferenced (fileMap : List (String × Doc)) (resolve : String → String → String)
    (f : String) : Prop :=
  ∃ fd ∈ fileMap, ∃ ent ∈ fd.2.struct, ∃ r, ent.2.lmay_file = some r ∧ resolve fd.1 r = f

/-- Modelled from the spec wording of P3 for comparison with the code:
reachability from the root document via nested-document (`lmay_file`) links,
each link resolved against the referencing document's directory. -/
inductive ReachableFromRoot (fileMap : List (String × Doc)) (resolve : String → String → String)
    (root : String) : String → Prop where
  | refl : ReachableFromRoot fileMap resolve root root
  | step {p r : String} {d : Doc} {ent : String × Item} :
      ReachableFromRoot fileMap resolve root p →
      lookupMap fileMap p = some d →
      ent ∈ d.struct →
      ent.2.lmay_file = some r →
      ReachableFromRoot fileMap resolve root (resolve p r)

/-
LMAYValidator hierarchy validation (validator.js lines 87-276).
`docs` maps a resolved document path to its parse result
(`yamlValidator.validateFile`); a path that is missing or fails to parse is
absent from the map (the JS helper then throws at line 132).
`resolve p r` stands for
`path.resolve(path.dirname(p), r)` composed with the
`path.relative(projectPath, .)` / `path.join(projectPath, .)` round trip of
lines 148-151, which is the identity for paths under the project root.
`fuel` bounds the recursion depth; since every recursive call extends
`visited` with a fresh key of `docs`, any `fuel` larger than the number of
documents makes the model total, and fuel exhaustion surfaces as a build
error exactly like the JS recursion could only fail by exhausting the stack.
-/

mutual
/-- A node of the hierarchy tree built by buildHierarchyTree (the object
literal at validator.js lines 135-141 plus the mutations at 155-157). The
children live in the sibling type `HNodeList` so that the tree walks below
are structurally recursive. -/
inductive HNode where
  | mk (file : String) (data : Doc) (depth : Nat) (parentFile : Option String)
      (parentKey : Option String) (children : HNodeList) : HNode

/-- A list of hierarchy nodes (the `children` array). -/
inductive HNodeList where
  | nil : HNodeList
  | cons (hd : HNode) (tl : HNodeList) : HNodeList
end

/-- Field accessor: `node.file`. -/
def HNode.file : HNode → String
  | HNode.mk f _ _ _ _ _ => f

/-- Field accessor: `node.data`. -/
def HNode.data : HNode → Doc
  | HNode.mk _ d _ _ _ _ => d

/-- Field accessor: `node.depth`. -/
def HNode.depth : HNode → Nat
  | HNode.mk _ _ dep _ _ _ => dep

/-- Field accessor: `node.parent && node.parent.file` (the only use the
validator makes of the parent pointer). -/
def HNode.parentFile : HNode → Option String
  | HNode.mk _ _ _ pf _ _ => pf

/-- Field accessor: `node.children`. -/
def HNode.children : HNode → HNodeList
  | HNode.mk _ _ _ _ _ ch => ch

/-- The three mutations run on a freshly built child (validator.js lines
155-157): `childNode.parent = node; childNode.depth = node.depth + 1;
childNode.parentKey = itemName`. Only the child node itself is rewritten;
its already-built subtree keeps the depths computed during the recursive
call. -/
def withParentAssignments (childNode : HNode) (parentFile : String) (newDepth : Nat)
    (parentKey : String) : HNode :=
  match childNode with
  | HNode.mk f d _ _ _ ch => HNode.mk f d newDepth (some parentFile) (some parentKey) ch

/-- LMAYValidator.buildHierarchyTree (validator.js lines 121-168). The node
is created with `depth: 0` (line 139, the `nodeDepth` binding below); after
a child build returns, the parent runs `childNode.depth = node.depth + 1`
(line 156) while its own `depth` is still that initial 0 (its caller
reassigns it only after this frame returns), so the overwrite is
`nodeDepth + 1`. A throw inside a child build (circular reference, parse
failure, exhausted fuel) is swallowed by the try/catch of lines 147-162 and
the child is skipped. The `visited` set is copied (`new Set(visited)`) on
each descent, modelled by extending the list down each branch only. -/
def buildHierarchyTree (docs : List (String × Doc)) (resolve : String → String → String) :
    Nat → String → List String → Except String HNode
  | 0, _, _ => Except.error "recursion depth exhausted"
  | fuel + 1, rootPath, visited =>
    if rootPath ∈ visited then
      Except.error "circular reference detected"
    else
      match lookupMap docs rootPath with
      | none => Except.error "unable to parse file"
      | some parsedContent =>
        let nodeDepth : Nat := 0
        let children := parsedContent.struct.foldr
          (fun ent acc =>
            match ent.2.lmay_file with
            | none => acc
            | some ref =>
              match buildHierarchyTree docs resolve fuel (resolve rootPath ref)
                  (rootPath :: visited) with
              | Except.error _ => acc
              | Except.ok childNode =>
                HNodeList.cons
                  (withParentAssignments childNode rootPath (nodeDepth + 1) ent.1) acc)
          HNodeList.nil
        Except.ok (HNode.mk rootPath parsedContent nodeDepth none none children)

/-- LMAYValidator.validateHierarchyMetadata (validator.js lines 198-227),
guarded by the `node.data.hierarchy` truthiness test of line 185.
`relativeOf c p` stands for `path.relative(path.dirname(c), p)` (lines
213-216). A declared parent is compared only when it is truthy and the node
has a parent. -/
def validateHierarchyMetadata (relativeOf : String → String → String) (node : HNode) :
    List Finding :=
  match node.data.hierarchy with
  | none => []
  | some hierarchy =>
    let depthErrors :=
      match hierarchy.depth with
      | none => []
      | some d =>
        if d ≠ (node.depth : Int) then
          [{ type := "incorrect_hierarchy_depth", file := node.file, path := "/hierarchy/depth" }]
        else []
    let parentErrors :=
      match hierarchy.parent, node.parentFile with
      | some hp, some pf =>
        if hp ≠ "" ∧ hp ≠ relativeOf node.file pf then
          [{ type := "incorrect_parent_reference", file := node.file, path := "/hierarchy/parent" }]
        else []
      | _, _ => []
    depthErrors ++ parentErrors

mutual
/-- LMAYValidator.validateHierarchyConsistency (validator.js lines 173-193):
per node, an `excessive_hierarchy_depth` warning past `maxDepth`, the
metadata checks, then the children in order. Returns (errors, warnings). -/
def validateHierarchyConsistency (relativeOf : String → String → String) (maxDepth : Nat)
    (node : HNode) : List Finding × List Finding :=
  match node with
  | HNode.mk file data depth parentFile parentKey children =>
    let node' := HNode.mk file data depth parentFile parentKey children
    let depthWarnings :=
      if depth > maxDepth then
        [{ type := "excessive_hierarchy_depth", file := file, level := depth }]
      else []
    let metaErrors := validateHierarchyMetadata relativeOf node'
    let rest := validateHierarchyConsistencyList relativeOf maxDepth children
    (metaErrors ++ rest.1, depthWarnings ++ rest.2)

/-- The recursive `for (const child of node.children)` walk of
validateHierarchyConsistency. -/
def validateHierarchyConsistencyList (relativeOf : String → String → String) (maxDepth : Nat)
    (nodes : HNodeList) : List Finding × List Finding :=
  match nodes with
  | HNodeList.nil => ([], [])
  | HNodeList.cons c cs =>
    let r1 := validateHierarchyConsistency relativeOf maxDepth c
    let r2 := validateHierarchyConsistencyList relativeOf maxDepth cs
    (r1.1 ++ r2.1, r1.2 ++ r2.2)
end

mutual
/-- Number of tree nodes whose computed depth equals `d` (the `levelCounts`
accumulation of validateDepthLevels, validator.js lines 232-239). -/
def countAtLevel (t : HNode) (d : Nat) : Nat :=
  match t with
  | HNode.mk _ _ depth _ _ children =>
    (if depth = d then 1 else 0) + countAtLevelList children d

/-- Sum of `countAtLevel` over a child list. -/
def countAtLevelList (ts : HNodeList) (d : Nat) : Nat :=
  match ts with
  | HNodeList.nil => 0
  | HNodeList.cons c cs => countAtLevel c d + countAtLevelList cs d
end

mutual
/-- Largest computed depth occurring in the tree. -/
def maxLevelOf (t : HNode) : Nat :=
  match t with
  | HNode.mk _ _ depth _ _ children => max depth (maxLevelOfList children)

/-- Largest computed depth occurring in a child list (0 when empty). -/
def maxLevelOfList (ts : HNodeList) : Nat :=
  match ts with
  | HNodeList.nil => 0
  | HNodeList.cons c cs => max (maxLevelOf c) (maxLevelOfList cs)
end

/-- The ascending list of levels that occur in the tree:
`Object.keys(levelCounts).map(Number).sort((a, b) => a - b)` at
validator.js line 251 (a level is a key exactly when its count is
positive). -/
def presentLevels (t : HNode) : List Nat :=
  (List.range (maxLevelOf t + 1)).filter (fun d => decide (0 < countAtLevel t d))

/-- LMAYValidator.analyzeDepthDistribution (validator.js lines 250-276):
`maxLevel = Math.max(...levels)`; one `flat_hierarchy` warning when
`maxLevel <= 1 && levelCounts[1] > 10` (an absent level-1 count, i.e. 0,
fails the `> 10` test just as `undefined` does); one
`unbalanced_hierarchy` warning for every adjacent pair of present levels
whose counts satisfy `levelCounts[cur] > levelCounts[prev] * 3`. -/
def analyzeDepthDistribution (t : HNode) : List Finding :=
  let levels := presentLevels t
  let maxLevel := levels.foldr max 0
  let flatWarnings :=
    if maxLevel ≤ 1 ∧ countAtLevel t 1 > 10 then
      [{ type := "flat_hierarchy" }]
    else []
  let unbalancedWarnings :=
    (levels.zip levels.tail).filterMap (fun pr =>
      if countAtLevel t pr.2 > countAtLevel t pr.1 * 3 then
        some { type := "unbalanced_hierarchy", level := pr.2 }
      else none)
  flatWarnings ++ unbalancedWarnings

/-- LMAYValidator.validateDepthLevels (validator.js lines 232-245): counts
nodes per level over the whole tree and, at the root (`node.depth === 0`),
runs the distribution analysis. In every tree built by buildHierarchyTree
only the root carries depth 0, so the analysis runs exactly once. -/
def validateDepthLevels (t : HNode) : List Finding :=
  if t.depth = 0 then analyzeDepthDistribution t else []

/-- LMAYValidator.validateHierarchy (validator.js lines 87-116): builds the
tree inside a try/catch; a throw that reaches this level becomes one
`hierarchy_build_error`; otherwise the consistency and depth-level passes
run (maxDepth defaults to 10). Returns (errors, warnings). -/
def validateHierarchy (docs : List (String × Doc)) (resolve relativeOf : String → String → String)
    (fuel : Nat) (rootPath : String) : List Finding × List Finding :=
  match buildHierarchyTree docs resolve fuel rootPath [] with
  | Except.error _ => ([{ type := "hierarchy_build_error", file := rootPath }], [])
  | Except.ok tree =>
    let consistency := validateHierarchyConsistency relativeOf 10 tree
    (consistency.1, consistency.2 ++ validateDepthLevels tree)

/-
MaintenanceEngine.analyzeObsolescence (tools/maintenance README, the
`analyzeObsolescence` / `extractFileReferences` methods). A file record
carries its path and last-modified time in milliseconds
(`file.modified.getTime()`). `readFile` supplies the raw document text,
`extractFileReferences` the line-scan extraction, `pathExists` the
`fs.pathExists` probe, and `resolveFrom p r` stands for
`path.resolve(path.dirname(p), r)`. The per-entry `age` field recorded in
the output (a rounded day count) is not modelled; classification only
depends on the comparisons below.
-/

/-- One discovered LMAY file as handed to the maintenance engine. -/
structure MFile where
  path : String
  modifiedMs : Int
deriving DecidableEq, Repr

/-- The analysis result object: `{obsolete: [], outdated: [], valid: []}`. -/
structure ObsAnalysis where
  obsolete : List MFile := []
  outdated : List MFile := []
  valid : List MFile := []
deriving DecidableEq, Repr

/-- The body of analyzeObsolescence's per-file loop: `age` is
`now - modified`; a file with `age > thresholdMs` is split by
`!hasValidReferences && references.length > 0` into obsolete vs outdated,
a younger file is valid. `hasValidReferences` is the existential loop with
early break over the extracted references. -/
def obsStep (readFile : String → String) (extractFileReferences : String → List String)
    (pathExists : String → Bool) (resolveFrom : String → String → String)
    (thresholdMs nowMs : Int) (analysis : ObsAnalysis) (file : MFile) : ObsAnalysis :=
  let age := nowMs - file.modifiedMs
  if age > thresholdMs then
    let references := extractFileReferences (readFile file.path)
    let hasValidReferences :=
      references.any (fun ref => pathExists (resolveFrom file.path ref))
    if hasValidReferences = false ∧ references.length > 0 then
      { analysis with obsolete := analysis.obsolete ++ [file] }
    else
      { analysis with outdated := analysis.outdated ++ [file] }
  else
    { analysis with valid := analysis.valid ++ [file] }

/-- MaintenanceEngine.analyzeObsolescence: the `for (const file of lmayFiles)`
loop folding obsStep over the discovered files, starting from the empty
analysis object. -/
def analyzeObsolescence (readFile : String → String)
    (extractFileReferences : String → List String) (pathExists : String → Bool)
    (resolveFrom : String → String → String) (lmayFiles : List MFile)
    (thresholdDays nowMs : Int) : ObsAnalysis :=
  let thresholdMs := thresholdDays * 24 * 60 * 60 * 1000
  lmayFiles.foldl
    (obsStep readFile extractFileReferences pathExists resolveFrom thresholdMs nowMs) {}

/-
YAMLValidator.validateFile (yaml-validator.js lines 13-79) and
LMAYValidator.validateFile (validator.js lines 30-48). The parse result is a
JS value whose truthiness the orchestrator tests with `if (!parsedContent)`;
the YAML validator returns `false` on its own error paths, so both cases
land in the same falsy test. `performAdditionalChecks` (indentation,
problematic characters, key structure — yaml-validator.js lines 88-221) and
the js-yaml `onWarning` callback only ever push warnings, which the model
captures by typing them as a warning-list producer. The schema validator is
passed in as the report-producing function the orchestrator would call, so
that skipping it is expressed by the result not depending on it.
-/

/-- The JS `String.prototype.trim` over the character data: strips leading
and trailing whitespace. -/
def jsTrim (s : String) : String :=
  String.mk (((s.data.dropWhile Char.isWhitespace).reverse.dropWhile
    Char.isWhitespace).reverse)

/-- A parsed YAML value as seen by the JS code: only its truthiness and (for
mappings) the document fields matter. -/
inductive JSVal where
  | vNull : JSVal
  | vBool : Bool → JSVal
  | vNum : Int → JSVal
  | vStr : String → JSVal
  | vDoc : Doc → JSVal
deriving DecidableEq, Repr

/-- JS truthiness of a parsed YAML value: `null`, `false`, `0` and `""` are
falsy, every mapping is truthy. -/
def truthy : JSVal → Bool
  | JSVal.vNull => false
  | JSVal.vBool b => b
  | JSVal.vNum n => decide (n ≠ 0)
  | JSVal.vStr s => decide (s ≠ "")
  | JSVal.vDoc _ => true

/-- YAMLValidator.validateFile: missing file, blank-after-trim content and
parse exceptions each push one error and return `false`; a successful parse
returns the parsed value (whatever its truthiness) and only warnings. The
returned report is `generateReport()` of the accumulated lists. -/
def yamlValidateFile (fileExists : Bool) (content : String)
    (parse : String → Except String JSVal)
    (performAdditionalChecks : String → List Finding) (filePath : String) :
    JSVal × Report :=
  if fileExists = false then
    (JSVal.vBool false, mkReport [{ type := "file_not_found", file := filePath }] [])
  else if jsTrim content = "" then
    (JSVal.vBool false, mkReport [{ type := "empty_file", file := filePath }] [])
  else
    match parse content with
    | Except.error _ =>
      (JSVal.vBool false, mkReport [{ type := "yaml_syntax_error", file := filePath }] [])
    | Except.ok parsedContent =>
      (parsedContent, mkReport [] (performAdditionalChecks content))

/-- LMAYValidator.validateFile (validator.js lines 30-48): runs the YAML
validator, merges its report, and returns early — skipping the schema
validator — when the parsed content is falsy; otherwise merges the schema
report before finalizing. -/
def validatorValidateFile (fileExists : Bool) (content : String)
    (parse : String → Except String JSVal)
    (performAdditionalChecks : String → List Finding)
    (schemaValidateLMAY : JSVal → Report) (filePath : String) : Results :=
  let parsed := yamlValidateFile fileExists content parse performAdditionalChecks filePath
  let results := mergeResults emptyResults parsed.2 "yaml"
  if truthy parsed.1 = false then
    finalizeResults results
  else
    finalizeResults (mergeResults results (schemaValidateLMAY parsed.1) "schema")

/-
Theorems about the embedded validators, one per claim, with the supporting
lemmas they share.
-/

/-- Errors accumulated by folding reports with mergeResults are empty exactly
when the accumulator's errors and every report's errors are empty. -/
theorem mergeFold_errors_eq_nil (reports : List (String × Report)) :
    ∀ acc : Results,
      ((reports.foldl (fun a nr => mergeResults a nr.2 nr.1) acc).errors = [] ↔
        (acc.errors = [] ∧ ∀ nr ∈ reports, nr.2.errors = [])) := by
  induction reports with
  | nil => intro acc; simp
  | cons hd tl ih =>
    intro acc
    rw [List.foldl_cons, ih]
    simp only [mergeResults, List.append_eq_nil, List.mem_cons]
    constructor
    · rintro ⟨⟨h1, h2⟩, h3⟩
      exact ⟨h1, fun nr hnr => by rcases hnr with rfl | hnr; exact h2; exact h3 nr hnr⟩
    · rintro ⟨h1, h2⟩
      exact ⟨⟨h1, h2 hd (Or.inl rfl)⟩, fun nr hnr => h2 nr (Or.inr hnr)⟩

/-- A finalized result is valid exactly when its (unchanged) error list is
empty. -/
theorem finalize_valid_iff (r : Results) :
    (finalizeResults r).valid = true ↔ r.errors = [] := by
  simp [finalizeResults, List.length_eq_zero]

/-- The aggregate of a run's reports has an empty error list exactly when
every merged report carried zero errors. -/
theorem mergeAll_errors_eq_nil (reports : List (String × Report)) :
    (mergeAll reports).errors = [] ↔ ∀ nr ∈ reports, nr.2.errors = [] := by
  have h := mergeFold_errors_eq_nil reports emptyResults
  rw [mergeAll, h]
  simp [emptyResults]

/-- C6: for every validation run, the finalized result's `valid` flag is true
iff its error list is empty; across a whole run, the aggregate built by
merging every validator's report is valid iff every merged report carried
zero errors; `valid` is independent of the warnings; and the CLI exit code
is 0 exactly when `valid` is true. -/
theorem success_contract (r : Results) (reports : List (String × Report)) :
    ((finalizeResults r).valid = true ↔ (finalizeResults r).errors = []) ∧
    ((finalizeResults (mergeAll reports)).valid = true ↔
      ∀ nr ∈ reports, nr.2.errors = []) ∧
    (∀ ws : List Finding,
      (finalizeResults { r with warnings := ws }).valid = (finalizeResults r).valid) ∧
    (exitCode (finalizeResults r) = 0 ↔ (finalizeResults r).valid = true) := by
  refine ⟨?_, ?_, ?_, ?_⟩
  · rw [finalize_valid_iff]
    exact Iff.rfl.trans (by rw [show (finalizeResults r).errors = r.errors from rfl])
  · rw [finalize_valid_iff]
    exact mergeAll_errors_eq_nil reports
  · intro ws; simp [finalizeResults]
  · cases h : (finalizeResults r).valid <;> simp [exitCode, h]

/-- The file-count guard of validateStructureItem, rephrased: the JS `&&`
chain holds exactly when the entry is file-kind and carries a nonzero count
different from 1. -/
theorem file_count_guard_iff (info : Item) :
    (info.type = some "file" ∧ truthyInt info.file_count = true ∧ info.file_count ≠ some 1) ↔
      (info.type = some "file" ∧ ∃ c, info.file_count = some c ∧ c ≠ 0 ∧ c ≠ 1) := by
  cases hc : info.file_count with
  | none => simp [hc, truthyInt]
  | some c => simp [hc, truthyInt]

/-- C7 (amended): validateStructureItem emits an `invalid_file_count` error
iff the entry declares `type: file` and a `file_count` that is both nonzero
(JS truthiness) and different from 1; in particular a declared
`file_count: 0` is never flagged. -/
theorem invalid_file_count_flagging (name : String) (info : Item) (filePath : String) :
    (∃ f ∈ (validateStructureItem name info filePath).1, f.type = "invalid_file_count") ↔
      (info.type = some "file" ∧ ∃ c, info.file_count = some c ∧ c ≠ 0 ∧ c ≠ 1) := by
  rw [← file_count_guard_iff]
  by_cases h : info.type = some "file" ∧ truthyInt info.file_count = true ∧
      info.file_count ≠ some 1
  · simp [validateStructureItem, if_pos h, h]
  · simp [validateStructureItem, if_neg h, h]

/-- C7 counterexample: a file-kind entry declaring `file_count: 0` carries a
`file_count` different from 1, yet schema validation emits no
`invalid_file_count` error (the claimed equivalence fails at this entry). -/
theorem file_count_zero_unflagged :
    ¬ (((∃ f ∈ (validateStructureItem "src"
            { type := some "file", file_count := some 0 } "doc.lmay").1,
          f.type = "invalid_file_count")) ↔
        ({ type := some "file", file_count := some 0 : Item }.file_count ≠ some 1)) := by
  intro h
  have h2 : ({ type := some "file", file_count := some 0 : Item }.file_count ≠ some 1) := by
    decide
  obtain ⟨f, hf, _⟩ := h.mpr h2
  simp [validateStructureItem, truthyInt] at hf

/-- C8: once a path has been loaded successfully (whether the load was served
from the cache or freshly read), calling loadLMAYFile again on the same path
returns the identical parsed document, leaves the state unchanged, and
performs zero file reads. -/
theorem loader_memoization (readParse : String → Except String Doc) (st : RVState)
    (p : String) (d : Doc) (h : (loadLMAYFile readParse st p).1 = some d) :
    loadLMAYFile readParse ((loadLMAYFile readParse st p).2.1) p =
      (some d, (loadLMAYFile readParse st p).2.1, []) := by
  cases hm : lookupMap st.fileMap p with
  | some cached =>
    have hval : (loadLMAYFile readParse st p) = (some cached, st, []) := by
      simp [loadLMAYFile, hm]
    rw [hval] at h ⊢
    simp at h
    simp [loadLMAYFile, hm, h]
  | none =>
    cases hr : readParse p with
    | ok data =>
      have hval : (loadLMAYFile readParse st p) =
          (some data, { st with fileMap := st.fileMap ++ [(p, data)] }, [p]) := by
        simp [loadLMAYFile, hm, hr]
      rw [hval] at h ⊢
      simp only [Option.some.injEq] at h
      subst h
      have hl : lookupMap (st.fileMap ++ [(p, data)]) p = some data :=
        lookupMap_append_single st.fileMap p data hm
      simp [loadLMAYFile, hl]
    | error e =>
      have hval : (loadLMAYFile readParse st p).1 = none := by
        simp [loadLMAYFile, hm, hr]
      rw [hval] at h
      cases h

/-- C8 witness: a concrete successful load, then a second load of the same
path returning the cached document with no further read. -/
theorem loader_memoization_witness :
    ((loadLMAYFile (fun _ => Except.ok {}) {} "root.lmay").1 = some {}) ∧
    loadLMAYFile (fun _ => Except.ok {})
        ((loadLMAYFile (fun _ => Except.ok {}) {} "root.lmay").2.1) "root.lmay" =
      (some {}, (loadLMAYFile (fun _ => Except.ok {}) {} "root.lmay").2.1, []) :=
  ⟨rfl, loader_memoization (fun _ => Except.ok {}) {} "root.lmay" {} rfl⟩

/-- C10: when the file exists, its content is non-blank after trimming, and
the YAML parse succeeds but yields a falsy scalar (null, false, 0 or the
empty string), single-file validation records no error, never invokes the
schema validator (no `schema` summary entry appears, whatever report that
validator would have produced), and returns `valid = true`. -/
theorem falsy_parse_skips_schema (content : String) (parse : String → Except String JSVal)
    (performAdditionalChecks : String → List Finding) (schemaValidateLMAY : JSVal → Report)
    (filePath : String) (v : JSVal) (hne : jsTrim content ≠ "")
    (hparse : parse content = Except.ok v) (hfalsy : truthy v = false) :
    (validatorValidateFile true content parse performAdditionalChecks schemaValidateLMAY
        filePath).valid = true ∧
    (validatorValidateFile true content parse performAdditionalChecks schemaValidateLMAY
        filePath).errors = [] ∧
    ∀ s ∈ (validatorValidateFile true content parse performAdditionalChecks schemaValidateLMAY
        filePath).summary, s.1 ≠ "schema" := by
  have hy : yamlValidateFile true content parse performAdditionalChecks filePath =
      (v, mkReport [] (performAdditionalChecks content)) := by
    simp [yamlValidateFile, if_neg hne, hparse]
  have hv : validatorValidateFile true content parse performAdditionalChecks schemaValidateLMAY
      filePath =
      finalizeResults (mergeResults emptyResults (mkReport [] (performAdditionalChecks content))
        "yaml") := by
    simp [validatorValidateFile, hy, hfalsy]
  rw [hv]
  refine ⟨?_, ?_, ?_⟩
  · simp [finalizeResults, mergeResults, emptyResults, mkReport]
  · simp [finalizeResults, mergeResults, emptyResults, mkReport]
  · intro s hs
    simp [finalizeResults, mergeResults, emptyResults, mkReport] at hs
    rcases hs with h | h <;> simp [h]

/-- C10 witness: the concrete file content `0` parses to the number 0, which
is falsy; validation returns valid with no errors and no schema summary
entry, even though the supplied schema validator would have reported an
error. -/
theorem falsy_parse_skips_schema_witness :
    (validatorValidateFile true "0" (fun _ => Except.ok (JSVal.vNum 0)) (fun _ => [])
        (fun _ => mkReport [{ type := "missing_version" }] []) "doc.lmay").valid = true ∧
    (validatorValidateFile true "0" (fun _ => Except.ok (JSVal.vNum 0)) (fun _ => [])
        (fun _ => mkReport [{ type := "missing_version" }] []) "doc.lmay").errors = [] ∧
    ∀ s ∈ (validatorValidateFile true "0" (fun _ => Except.ok (JSVal.vNum 0)) (fun _ => [])
        (fun _ => mkReport [{ type := "missing_version" }] []) "doc.lmay").summary,
      s.1 ≠ "schema" :=
  falsy_parse_skips_schema "0" (fun _ => Except.ok (JSVal.vNum 0)) (fun _ => [])
    (fun _ => mkReport [{ type := "missing_version" }] []) "doc.lmay" (JSVal.vNum 0)
    (by decide) rfl rfl

/-- The entries loop of the circular-reference DFS can only return an empty
finding list: the sole push site sits after the throwing resolve call. -/
theorem cycleEntriesLoop_ok_nil (es : List (String × Item)) (l : List Finding)
    (h : cycleEntriesLoop es = Except.ok l) : l = [] := by
  induction es with
  | nil => simp [cycleEntriesLoop] at h; exact h
  | cons hd tl ih =>
    obtain ⟨nm, itemInfo⟩ := hd
    rw [cycleEntriesLoop] at h
    cases hlm : itemInfo.lmay_file with
    | none => rw [hlm] at h; exact ih h
    | some r =>
      rw [hlm] at h
      simp [jsPathResolveOnArray] at h

/-- The per-file DFS helper can only return an empty finding list. -/
theorem detectRecursive_ok_nil (fileMap : List (String × Doc)) (p : String)
    (visited : List String) (v : List String) (l : List Finding)
    (h : detectCircularReferencesRecursive fileMap p visited = Except.ok (v, l)) : l = [] := by
  rw [detectCircularReferencesRecursive] at h
  cases hl : lookupMap fileMap p with
  | none =>
    simp only [hl, Except.ok.injEq, Prod.mk.injEq] at h
    exact h.2.symm
  | some data =>
    simp only [hl] at h
    cases hloop : cycleEntriesLoop data.struct with
    | ok l' =>
      simp only [hloop, Except.ok.injEq, Prod.mk.injEq] at h
      rw [← h.2]
      exact cycleEntriesLoop_ok_nil data.struct l' hloop
    | error e =>
      simp only [hloop] at h
      cases h

/-- The key loop of detectCircularReferences can only return an empty finding
list. -/
theorem detectGo_ok_nil (fileMap : List (String × Doc)) (ks : List String) :
    ∀ (visited : List String) (l : List Finding),
      detectCircularReferencesGo fileMap ks visited = Except.ok l → l = [] := by
  induction ks with
  | nil =>
    intro visited l h
    simp [detectCircularReferencesGo] at h
    exact h
  | cons k ks ih =>
    intro visited l h
    rw [detectCircularReferencesGo] at h
    by_cases hk : k ∈ visited
    · rw [if_pos hk] at h; exact ih visited l h
    · rw [if_neg hk] at h
      cases hr : detectCircularReferencesRecursive fileMap k visited with
      | ok pr =>
        obtain ⟨visited', findings⟩ := pr
        simp only [hr] at h
        cases hg : detectCircularReferencesGo fileMap ks visited' with
        | ok rest =>
          simp only [hg, Except.ok.injEq] at h
          rw [← h, detectRecursive_ok_nil fileMap k visited visited' findings hr,
            ih visited' rest hg]
          rfl
        | error e =>
          simp only [hg] at h
          cases h
      | error e =>
        simp only [hr] at h
        cases h

/-- A file map whose single document links to itself: the smallest cyclic
nested-document graph. -/
def selfLoopFileMap : List (String × Doc) :=
  [("/proj/root.lmay", { struct := [("self", { lmay_file := some "/proj/root.lmay" })] })]

/-- C1: the cycle detector can never report a `circular_reference` finding —
on any file map its only outcomes are no findings or a thrown TypeError
(the recursion parameter `path` shadows the path module), which
validateProject converts into a single `validation_error`. In particular, on
the self-loop graph the run yields exactly one `validation_error` and zero
`circular_reference` findings instead of the claimed single
`circular_reference` carrying the cycle. -/
theorem cycle_detection_never_reports_circular :
    (∀ fileMap : List (String × Doc),
      (runCircularReferenceCheck fileMap).countP
        (fun f => f.type == "circular_reference") = 0) ∧
    runCircularReferenceCheck selfLoopFileMap = [{ type := "validation_error" }] := by
  constructor
  · intro fileMap
    rw [runCircularReferenceCheck]
    cases hd : detectCircularReferences fileMap with
    | ok l =>
      rw [detectGo_ok_nil fileMap (fileMap.map Prod.fst) [] l hd]
      rfl
    | error e => rfl
  · rfl

/-- An lmay_file reference given directly as the target's canonical key
(resolution is then the identity on the reference). -/
def idResolve : String → String → String := fun _ r => r

/-- The orphan-detection counterexample layout: the root links nothing,
`a.lmay` links `b.lmay`. All three files are discovered and loaded. -/
def orphanExampleFiles : List String := ["root.lmay", "a.lmay", "b.lmay"]

/-- The loaded documents of the orphan-detection counterexample. -/
def orphanExampleMap : List (String × Doc) :=
  [("root.lmay", {}),
   ("a.lmay", { struct := [("x", { lmay_file := some "b.lmay" })] }),
   ("b.lmay", {})]

/-- In the counterexample graph nothing but the root itself is reachable from
the root (its document has no links). -/
theorem orphanExample_reachable_eq_root (q : String)
    (h : ReachableFromRoot orphanExampleMap idResolve "root.lmay" q) : q = "root.lmay" := by
  induction h with
  | refl => rfl
  | step hreach hlook hmem hlm ih =>
    subst ih
    have hd : lookupMap orphanExampleMap "root.lmay" = some {} := rfl
    rw [hd] at hlook
    injection hlook with hlook
    subst hlook
    simp at hmem

/-- C2 counterexample: `b.lmay` is not reachable from the root via
nested-document links, yet detectOrphanFiles does not flag it (it is
directly referenced by the orphan `a.lmay`), so the claimed equivalence
fails at `b.lmay`. -/
theorem orphan_unreachable_not_flagged :
    ¬ (({ type := "orphan_lmay_file", file := "b.lmay" : Finding } ∈
          detectOrphanFiles orphanExampleFiles "root.lmay" orphanExampleMap idResolve) ↔
        ¬ ReachableFromRoot orphanExampleMap idResolve "root.lmay" "b.lmay") := by
  intro h
  have hnr : ¬ ReachableFromRoot orphanExampleMap idResolve "root.lmay" "b.lmay" := by
    intro hr
    have := orphanExample_reachable_eq_root "b.lmay" hr
    simp at this
  have hmem := h.mpr hnr
  revert hmem
  decide

/-- C2 (amended): detectOrphanFiles flags a file iff it was discovered, it is
not the discovered root file, and no loaded document directly references it
through an `lmay_file` link (resolution relative to the referencing
document); reachability from the root plays no role. -/
theorem orphan_flagged_iff_not_directly_referenced (allLMAYFiles : List String)
    (rootLmay : String) (fileMap : List (String × Doc))
    (resolve : String → String → String) (f : String) :
    ({ type := "orphan_lmay_file", file := f : Finding } ∈
        detectOrphanFiles allLMAYFiles rootLmay fileMap resolve) ↔
      (f ∈ allLMAYFiles ∧ ¬ (rootLmay ∈ allLMAYFiles ∧ f = rootLmay) ∧
        ¬ directlyReferenced fileMap resolve f) := by
  rw [detectOrphanFiles]
  constructor
  · intro hmem
    rw [List.mem_map] at hmem
    obtain ⟨g, hg, heq⟩ := hmem
    have hgf : g = f := by
      have := congrArg Finding.file heq
      simpa using this
    subst hgf
    rw [List.mem_filter] at hg
    refine ⟨hg.1, ?_, ?_⟩
    · intro ⟨hroot, hfr⟩
      have hnotin := of_decide_eq_true hg.2
      exact hnotin (by
        rw [referencedFilesOf, if_pos hroot]
        exact List.mem_append_left _ (by simp [hfr]))
    · intro ⟨fd, hfd, ent, hent, r, hr, hres⟩
      have hnotin := of_decide_eq_true hg.2
      exact hnotin (by
        rw [referencedFilesOf]
        refine List.mem_append_right _ ?_
        rw [List.mem_flatMap]
        refine ⟨fd, hfd, ?_⟩
        rw [List.mem_filterMap]
        exact ⟨ent, hent, by rw [hr]; simp [hres]⟩)
  · intro ⟨hin, hnotroot, hnotref⟩
    rw [List.mem_map]
    refine ⟨f, ?_, rfl⟩
    rw [List.mem_filter]
    refine ⟨hin, decide_eq_true ?_⟩
    intro hmem
    rw [referencedFilesOf, List.mem_append] at hmem
    rcases hmem with hroot | hflat
    · by_cases hr : rootLmay ∈ allLMAYFiles
      · rw [if_pos hr] at hroot
        simp at hroot
        exact hnotroot ⟨hr, hroot⟩
      · rw [if_neg hr] at hroot
        simp at hroot
    · rw [List.mem_flatMap] at hflat
      obtain ⟨fd, hfd, hmem2⟩ := hflat
      rw [List.mem_filterMap] at hmem2
      obtain ⟨ent, hent, hopt⟩ := hmem2
      rw [Option.map_eq_some'] at hopt
      obtain ⟨r, hr, hres⟩ := hopt
      exact hnotref ⟨fd, hfd, ent, hent, r, hr, hres⟩

/-- Membership in the three lists produced by folding obsStep: a file lands
in `obsolete` / `outdated` / `valid` according to the loop conditions. -/
theorem obsFold_mem (readFile : String → String) (extract : String → List String)
    (pathExists : String → Bool) (resolveFrom : String → String → String)
    (thresholdMs nowMs : Int) (files : List MFile) :
    ∀ (acc : ObsAnalysis) (f : MFile),
      (f ∈ (files.foldl
            (obsStep readFile extract pathExists resolveFrom thresholdMs nowMs) acc).obsolete ↔
        f ∈ acc.obsolete ∨ (f ∈ files ∧ nowMs - f.modifiedMs > thresholdMs ∧
          ((extract (readFile f.path)).any
              (fun ref => pathExists (resolveFrom f.path ref)) = false ∧
            (extract (readFile f.path)).length > 0))) ∧
      (f ∈ (files.foldl
            (obsStep readFile extract pathExists resolveFrom thresholdMs nowMs) acc).outdated ↔
        f ∈ acc.outdated ∨ (f ∈ files ∧ nowMs - f.modifiedMs > thresholdMs ∧
          ¬ ((extract (readFile f.path)).any
              (fun ref => pathExists (resolveFrom f.path ref)) = false ∧
            (extract (readFile f.path)).length > 0))) ∧
      (f ∈ (files.foldl
            (obsStep readFile extract pathExists resolveFrom thresholdMs nowMs) acc).valid ↔
        f ∈ acc.valid ∨ (f ∈ files ∧ ¬ (nowMs - f.modifiedMs > thresholdMs))) := by
  induction files with
  | nil => intro acc f; simp
  | cons g gs ih =>
    intro acc f
    rw [List.foldl_cons]
    obtain ⟨ih1, ih2, ih3⟩ :=
      ih (obsStep readFile extract pathExists resolveFrom thresholdMs nowMs acc g) f
    by_cases h1 : nowMs - g.modifiedMs > thresholdMs
    · by_cases h2 : ((extract (readFile g.path)).any
          (fun ref => pathExists (resolveFrom g.path ref)) = false ∧
          (extract (readFile g.path)).length > 0)
      · refine ⟨ih1.trans ?_, ih2.trans ?_, ih3.trans ?_⟩
        · simp only [obsStep, if_pos h1, if_pos h2, List.mem_append, List.mem_cons, List.not_mem_nil,
            or_false]
          constructor
          · rintro ((hf | rfl) | ⟨hf, hc⟩)
            · exact Or.inl hf
            · exact Or.inr ⟨Or.inl rfl, h1, h2⟩
            · exact Or.inr ⟨Or.inr hf, hc⟩
          · rintro (hf | ⟨(rfl | hf), hc⟩)
            · exact Or.inl (Or.inl hf)
            · exact Or.inl (Or.inr rfl)
            · exact Or.inr ⟨hf, hc⟩
        · simp only [obsStep, if_pos h1, if_pos h2, List.mem_cons]
          constructor
          · rintro (hf | ⟨hf, hc⟩)
            · exact Or.inl hf
            · exact Or.inr ⟨Or.inr hf, hc⟩
          · rintro (hf | ⟨(rfl | hf), hc⟩)
            · exact Or.inl hf
            · exact absurd h2 hc.2
            · exact Or.inr ⟨hf, hc⟩
        · simp only [obsStep, if_pos h1, if_pos h2, List.mem_cons]
          constructor
          · rintro (hf | ⟨hf, hc⟩)
            · exact Or.inl hf
            · exact Or.inr ⟨Or.inr hf, hc⟩
          · rintro (hf | ⟨(rfl | hf), hc⟩)
            · exact Or.inl hf
            · exact absurd h1 hc
            · exact Or.inr ⟨hf, hc⟩
      · refine ⟨ih1.trans ?_, ih2.trans ?_, ih3.trans ?_⟩
        · simp only [obsStep, if_pos h1, if_neg h2, List.mem_cons]
          constructor
          · rintro (hf | ⟨hf, hc⟩)
            · exact Or.inl hf
            · exact Or.inr ⟨Or.inr hf, hc⟩
          · rintro (hf | ⟨(rfl | hf), hc⟩)
            · exact Or.inl hf
            · exact absurd hc.2 h2
            · exact Or.inr ⟨hf, hc⟩
        · simp only [obsStep, if_pos h1, if_neg h2, List.mem_append, List.mem_cons, List.not_mem_nil,
            or_false]
          constructor
          · rintro ((hf | rfl) | ⟨hf, hc⟩)
            · exact Or.inl hf
            · exact Or.inr ⟨Or.inl rfl, h1, h2⟩
            · exact Or.inr ⟨Or.inr hf, hc⟩
          · rintro (hf | ⟨(rfl | hf), hc⟩)
            · exact Or.inl (Or.inl hf)
            · exact Or.inl (Or.inr rfl)
            · exact Or.inr ⟨hf, hc⟩
        · simp only [obsStep, if_pos h1, if_neg h2, List.mem_cons]
          constructor
          · rintro (hf | ⟨hf, hc⟩)
            · exact Or.inl hf
            · exact Or.inr ⟨Or.inr hf, hc⟩
          · rintro (hf | ⟨(rfl | hf), hc⟩)
            · exact Or.inl hf
            · exact absurd h1 hc
            · exact Or.inr ⟨hf, hc⟩
    · refine ⟨ih1.trans ?_, ih2.trans ?_, ih3.trans ?_⟩
      · simp only [obsStep, if_neg h1, List.mem_cons]
        constructor
        · rintro (hf | ⟨hf, hc⟩)
          · exact Or.inl hf
          · exact Or.inr ⟨Or.inr hf, hc⟩
        · rintro (hf | ⟨(rfl | hf), hc⟩)
          · exact Or.inl hf
          · exact absurd hc.1 h1
          · exact Or.inr ⟨hf, hc⟩
      · simp only [obsStep, if_neg h1, List.mem_cons]
        constructor
        · rintro (hf | ⟨hf, hc⟩)
          · exact Or.inl hf
          · exact Or.inr ⟨Or.inr hf, hc⟩
        · rintro (hf | ⟨(rfl | hf), hc⟩)
          · exact Or.inl hf
          · exact absurd hc.1 h1
          · exact Or.inr ⟨hf, hc⟩
      · simp only [obsStep, if_neg h1, List.mem_append, List.mem_cons, List.not_mem_nil, or_false]
        constructor
        · rintro ((hf | rfl) | ⟨hf, hc⟩)
          · exact Or.inl hf
          · exact Or.inr ⟨Or.inl rfl, h1⟩
          · exact Or.inr ⟨Or.inr hf, hc⟩
        · rintro (hf | ⟨(rfl | hf), hc⟩)
          · exact Or.inl (Or.inl hf)
          · exact Or.inl (Or.inr rfl)
          · exact Or.inr ⟨hf, hc⟩

/-- C3: analyzeObsolescence classifies a document whose age does not exceed
the threshold as valid (never obsolete or outdated, whatever its
references); a document over the threshold is obsolete exactly when it has
at least one extracted reference and none of them resolves, and outdated
otherwise — and never valid. -/
theorem obsolescence_classification (readFile : String → String)
    (extract : String → List String) (pathExists : String → Bool)
    (resolveFrom : String → String → String) (lmayFiles : List MFile)
    (thresholdDays nowMs : Int) (f : MFile) (hf : f ∈ lmayFiles) :
    (nowMs - f.modifiedMs ≤ thresholdDays * 24 * 60 * 60 * 1000 →
      (f ∈ (analyzeObsolescence readFile extract pathExists resolveFrom lmayFiles
              thresholdDays nowMs).valid ∧
        f ∉ (analyzeObsolescence readFile extract pathExists resolveFrom lmayFiles
              thresholdDays nowMs).obsolete ∧
        f ∉ (analyzeObsolescence readFile extract pathExists resolveFrom lmayFiles
              thresholdDays nowMs).outdated)) ∧
    (nowMs - f.modifiedMs > thresholdDays * 24 * 60 * 60 * 1000 →
      ((f ∈ (analyzeObsolescence readFile extract pathExists resolveFrom lmayFiles
              thresholdDays nowMs).obsolete ↔
          (extract (readFile f.path) ≠ [] ∧
            ∀ r ∈ extract (readFile f.path), pathExists (resolveFrom f.path r) = false)) ∧
        (f ∈ (analyzeObsolescence readFile extract pathExists resolveFrom lmayFiles
              thresholdDays nowMs).outdated ↔
          ¬ (extract (readFile f.path) ≠ [] ∧
            ∀ r ∈ extract (readFile f.path), pathExists (resolveFrom f.path r) = false)) ∧
        f ∉ (analyzeObsolescence readFile extract pathExists resolveFrom lmayFiles
              thresholdDays nowMs).valid)) := by
  obtain ⟨hm1, hm2, hm3⟩ := obsFold_mem readFile extract pathExists resolveFrom
    (thresholdDays * 24 * 60 * 60 * 1000) nowMs lmayFiles {} f
  have hunf : analyzeObsolescence readFile extract pathExists resolveFrom lmayFiles
      thresholdDays nowMs =
      lmayFiles.foldl (obsStep readFile extract pathExists resolveFrom
        (thresholdDays * 24 * 60 * 60 * 1000) nowMs) {} := rfl
  have hcond : (((extract (readFile f.path)).any
        (fun ref => pathExists (resolveFrom f.path ref)) = false ∧
        (extract (readFile f.path)).length > 0) ↔
      (extract (readFile f.path) ≠ [] ∧
        ∀ r ∈ extract (readFile f.path), pathExists (resolveFrom f.path r) = false)) := by
    constructor
    · rintro ⟨hany, hlen⟩
      refine ⟨List.length_pos.mp hlen, ?_⟩
      intro r hr
      have := List.any_eq_false.mp hany r hr
      simpa using this
    · rintro ⟨hne, hall⟩
      refine ⟨List.any_eq_false.mpr ?_, List.length_pos.mpr hne⟩
      intro r hr
      simp [hall r hr]
  constructor
  · intro hyoung
    have hnst : ¬ (nowMs - f.modifiedMs > thresholdDays * 24 * 60 * 60 * 1000) :=
      not_lt.mpr hyoung
    refine ⟨?_, ?_, ?_⟩
    · rw [hunf, hm3]
      exact Or.inr ⟨hf, hnst⟩
    · intro hmem
      rw [hunf, hm1] at hmem
      rcases hmem with h0 | ⟨_, hst, _⟩
      · exact (List.not_mem_nil f) h0
      · exact hnst hst
    · intro hmem
      rw [hunf, hm2] at hmem
      rcases hmem with h0 | ⟨_, hst, _⟩
      · exact (List.not_mem_nil f) h0
      · exact hnst hst
  · intro hstale
    refine ⟨?_, ?_, ?_⟩
    · rw [hunf, hm1]
      constructor
      · rintro (h0 | ⟨_, _, hc⟩)
        · exact absurd h0 (List.not_mem_nil f)
        · exact hcond.mp hc
      · intro hc
        exact Or.inr ⟨hf, hstale, hcond.mpr hc⟩
    · rw [hunf, hm2]
      constructor
      · rintro (h0 | ⟨_, _, hc⟩)
        · exact absurd h0 (List.not_mem_nil f)
        · exact fun hx => hc (hcond.mpr hx)
      · intro hc
        exact Or.inr ⟨hf, hstale, fun hx => hc (hcond.mp hx)⟩
    · intro hmem
      rw [hunf, hm3] at hmem
      rcases hmem with h0 | ⟨_, hnst⟩
      · exact (List.not_mem_nil f) h0
      · exact hnst hstale

/-- C3 witness: a 45-day-old document under a 30-day threshold whose single
reference does not resolve is classified obsolete; a fresh document is
classified valid. -/
theorem obsolescence_classification_witness :
    ((⟨"doc.lmay", 0⟩ : MFile) ∈ (analyzeObsolescence (fun _ => "x")
        (fun _ => ["src"]) (fun _ => false) (fun _ r => r)
        [⟨"doc.lmay", 0⟩] 30 (45 * 24 * 60 * 60 * 1000)).obsolete ↔
      ((["src"] : List String) ≠ [] ∧
        ∀ r ∈ (["src"] : List String), (fun _ => false : String → Bool) r = false)) ∧
    ((⟨"fresh.lmay", 0⟩ : MFile) ∈ (analyzeObsolescence (fun _ => "x")
        (fun _ => ["src"]) (fun _ => false) (fun _ r => r)
        [⟨"fresh.lmay", 0⟩] 30 0).valid) := by
  constructor
  · exact ((obsolescence_classification (fun _ => "x") (fun _ => ["src"]) (fun _ => false)
      (fun _ r => r) [⟨"doc.lmay", 0⟩] 30 (45 * 24 * 60 * 60 * 1000) ⟨"doc.lmay", 0⟩
      (by decide)).2 (by decide)).1
  · exact ((obsolescence_classification (fun _ => "x") (fun _ => ["src"]) (fun _ => false)
      (fun _ r => r) [⟨"fresh.lmay", 0⟩] 30 0 ⟨"fresh.lmay", 0⟩
      (by decide)).1 (by decide)).1

/-- Findings pushed by validateHierarchyMetadata carry one of the two
metadata error types. -/
theorem validateHierarchyMetadata_types (relativeOf : String → String → String)
    (node : HNode) :
    ∀ f ∈ validateHierarchyMetadata relativeOf node,
      f.type = "incorrect_hierarchy_depth" ∨ f.type = "incorrect_parent_reference" := by
  intro f hf
  rw [validateHierarchyMetadata] at hf
  split at hf
  · cases hf
  · simp only [List.mem_append] at hf
    rcases hf with hf | hf
    · split at hf
      · cases hf
      · split at hf
        · simp at hf
          left
          rw [hf]
        · cases hf
    · split at hf
      · split at hf
        · simp at hf
          right
          rw [hf]
        · cases hf
      · cases hf

mutual
/-- Every error pushed by the hierarchy consistency walk is one of the two
metadata error types (never a build or circular error). -/
theorem consistency_types (relativeOf : String → String → String) (maxDepth : Nat)
    (node : HNode) :
    ∀ f ∈ (validateHierarchyConsistency relativeOf maxDepth node).1,
      f.type = "incorrect_hierarchy_depth" ∨ f.type = "incorrect_parent_reference" :=
  match node with
  | HNode.mk file data depth parentFile parentKey children => by
    intro f hf
    rw [validateHierarchyConsistency] at hf
    simp only [List.mem_append] at hf
    rcases hf with hf | hf
    · exact validateHierarchyMetadata_types relativeOf
        (HNode.mk file data depth parentFile parentKey children) f hf
    · exact consistency_types_list relativeOf maxDepth children f hf

/-- List version of consistency_types. -/
theorem consistency_types_list (relativeOf : String → String → String) (maxDepth : Nat)
    (nodes : HNodeList) :
    ∀ f ∈ (validateHierarchyConsistencyList relativeOf maxDepth nodes).1,
      f.type = "incorrect_hierarchy_depth" ∨ f.type = "incorrect_parent_reference" :=
  match nodes with
  | HNodeList.nil => by
    intro f hf
    rw [validateHierarchyConsistencyList] at hf
    cases hf
  | HNodeList.cons c cs => by
    intro f hf
    rw [validateHierarchyConsistencyList] at hf
    simp only [List.mem_append] at hf
    rcases hf with hf | hf
    · exact consistency_types relativeOf maxDepth c f hf
    · exact consistency_types_list relativeOf maxDepth cs f hf
end

/-- A two-document cycle: the root links `a.lmay`, which links back to the
root. -/
def cycleDocs : List (String × Doc) :=
  [("root.lmay", { struct := [("a", { lmay_file := some "a.lmay" })] }),
   ("a.lmay", { struct := [("r", { lmay_file := some "root.lmay" })] })]

/-- A diamond: two sibling branches of the root converge on `c.lmay`. -/
def diamondDocs : List (String × Doc) :=
  [("root.lmay", { struct := [("a", { lmay_file := some "a.lmay" }),
                              ("b", { lmay_file := some "b.lmay" })] }),
   ("a.lmay", { struct := [("c", { lmay_file := some "c.lmay" })] }),
   ("b.lmay", { struct := [("c", { lmay_file := some "c.lmay" })] }),
   ("c.lmay", {})]

/-- C4 counterexample: on the cyclic project the hierarchy validation result
contains no error at all — the circular-reference throw from the child build
is swallowed by the parent's catch and the cyclic child is silently skipped,
contradicting the claim that the result contains a circular-reference
hierarchy error. The diamond produces no error either (second conjunct),
and the cyclic child is indeed absent from the built tree (third conjunct). -/
theorem hierarchy_cycle_error_swallowed :
    (validateHierarchy cycleDocs idResolve idResolve 10 "root.lmay").1 = [] ∧
    (validateHierarchy diamondDocs idResolve idResolve 10 "root.lmay").1 = [] ∧
    buildHierarchyTree cycleDocs idResolve 10 "root.lmay" [] = Except.ok
      (HNode.mk "root.lmay" { struct := [("a", { lmay_file := some "a.lmay" })] } 0 none none
        (HNodeList.cons
          (HNode.mk "a.lmay" { struct := [("r", { lmay_file := some "root.lmay" })] } 1
            (some "root.lmay") (some "a") HNodeList.nil)
          HNodeList.nil)) := by
  refine ⟨?_, ?_, rfl⟩ <;> rfl

/-- C4 (amended): whenever the root document itself loads, the hierarchy
errors can only be the two metadata error types — a `hierarchy_build_error`
(and in particular a circular-reference build failure) never appears,
because every throw inside a child build is caught and the child skipped;
only an unloadable root makes the build error surface. -/
theorem hierarchy_build_error_only_for_unloadable_root (docs : List (String × Doc))
    (resolve relativeOf : String → String → String) (fuel : Nat) (rootPath : String)
    (d : Doc) (hroot : lookupMap docs rootPath = some d) (hfuel : 0 < fuel) :
    ∀ f ∈ (validateHierarchy docs resolve relativeOf fuel rootPath).1,
      f.type = "incorrect_hierarchy_depth" ∨ f.type = "incorrect_parent_reference" := by
  obtain ⟨n, rfl⟩ : ∃ n, fuel = n + 1 := ⟨fuel - 1, by omega⟩
  have hbuild : ∃ t, buildHierarchyTree docs resolve (n + 1) rootPath [] = Except.ok t := by
    rw [buildHierarchyTree]
    rw [if_neg (List.not_mem_nil rootPath), hroot]
    exact ⟨_, rfl⟩
  obtain ⟨t, ht⟩ := hbuild
  intro f hf
  rw [validateHierarchy] at hf
  rw [ht] at hf
  exact consistency_types relativeOf 10 t f hf

/-- A three-document chain: root links `a.lmay`, which links `b.lmay`;
`b.lmay` declares `hierarchy.depth: 2`, its true hop distance from the
root. -/
def chainDocs : List (String × Doc) :=
  [("root.lmay", { struct := [("a", { lmay_file := some "a.lmay" })] }),
   ("a.lmay", { struct := [("b", { lmay_file := some "b.lmay" })] }),
   ("b.lmay", { struct := [], hierarchy := some { depth := some 2 } })]

/-- C4 witness: the amended statement applied to the chain project, whose
root loads and whose hierarchy error list contains one finding — its type is
one of the two metadata error types. -/
theorem hierarchy_build_error_only_for_unloadable_root_witness :
    ({ type := "incorrect_hierarchy_depth", file := "b.lmay", path := "/hierarchy/depth" :
        Finding }.type = "incorrect_hierarchy_depth" ∨
      ({ type := "incorrect_hierarchy_depth", file := "b.lmay", path := "/hierarchy/depth" :
        Finding }).type = "incorrect_parent_reference") :=
  hierarchy_build_error_only_for_unloadable_root chainDocs idResolve idResolve 10 "root.lmay"
    { struct := [("a", { lmay_file := some "a.lmay" })] } rfl (by decide)
    { type := "incorrect_hierarchy_depth", file := "b.lmay", path := "/hierarchy/depth" }
    (by decide)

/-- C5: in the tree built for the chain root → a → b, the node for `b.lmay`
(two nested-document hops from the root) carries computed depth 1, not 2 —
`childNode.depth = node.depth + 1` runs while the parent's depth is still
its initial 0 — and consequently `b.lmay`, which declares the true hop count
2, is reported with an `incorrect_hierarchy_depth` error. -/
theorem hierarchy_depth_stale_assignment :
    buildHierarchyTree chainDocs idResolve 10 "root.lmay" [] = Except.ok
      (HNode.mk "root.lmay" { struct := [("a", { lmay_file := some "a.lmay" })] } 0 none none
        (HNodeList.cons
          (HNode.mk "a.lmay" { struct := [("b", { lmay_file := some "b.lmay" })] } 1
            (some "root.lmay") (some "a")
            (HNodeList.cons
              (HNode.mk "b.lmay" { struct := [], hierarchy := some { depth := some 2 } } 1
                (some "a.lmay") (some "b") HNodeList.nil)
              HNodeList.nil))
          HNodeList.nil)) ∧
    ({ type := "incorrect_hierarchy_depth", file := "b.lmay", path := "/hierarchy/depth" :
        Finding } ∈
      (validateHierarchy chainDocs idResolve idResolve 10 "root.lmay").1) := by
  exact ⟨rfl, by decide⟩

/-- An upper bound on every member bounds the maximum fold. -/
theorem foldr_max_le (L : List Nat) (b : Nat) (h : ∀ x ∈ L, x ≤ b) :
    L.foldr max 0 ≤ b := by
  induction L with
  | nil => simp
  | cons x xs ih =>
    simp only [List.foldr_cons]
    exact max_le (h x (by simp)) (ih fun y hy => h y (by simp [hy]))

/-- Every member is at most the maximum fold. -/
theorem le_foldr_max (L : List Nat) (x : Nat) (hx : x ∈ L) : x ≤ L.foldr max 0 := by
  induction L with
  | nil => cases hx
  | cons y ys ih =>
    rcases List.mem_cons.mp hx with rfl | h
    · exact le_max_left _ _
    · exact le_trans (ih h) (le_max_right _ _)

mutual
/-- Some node of the tree sits at the tree's maximum level. -/
theorem countAt_maxLevel_pos (t : HNode) : 0 < countAtLevel t (maxLevelOf t) :=
  match t with
  | HNode.mk file data depth pf pk children => by
    simp only [countAtLevel, maxLevelOf]
    by_cases hc : depth = max depth (maxLevelOfList children)
    · rw [if_pos hc]
      omega
    · rw [if_neg hc]
      have hmax : max depth (maxLevelOfList children) = maxLevelOfList children := by
        rcases max_choice depth (maxLevelOfList children) with h | h
        · exact absurd h.symm hc
        · exact h
      rw [hmax]
      rcases countAtList_maxLevelList_pos children with hnil | hpos
      · subst hnil
        rw [show maxLevelOfList HNodeList.nil = 0 from rfl, Nat.max_zero] at hc
        simp at hc
      · omega

/-- A nonempty node list has a node at its maximum level. -/
theorem countAtList_maxLevelList_pos (ts : HNodeList) :
    ts = HNodeList.nil ∨ 0 < countAtLevelList ts (maxLevelOfList ts) :=
  match ts with
  | HNodeList.nil => Or.inl rfl
  | HNodeList.cons c cs => Or.inr (by
      simp only [countAtLevelList, maxLevelOfList]
      rcases max_choice (maxLevelOf c) (maxLevelOfList cs) with h | h
      · rw [h]
        have := countAt_maxLevel_pos c
        omega
      · rw [h]
        rcases countAtList_maxLevelList_pos cs with hnil | hpos
        · subst hnil
          rw [show maxLevelOfList HNodeList.nil = 0 from rfl] at h ⊢
          rw [Nat.max_zero] at h
          have := countAt_maxLevel_pos c
          rw [h] at this
          simp only [countAtLevelList]
          omega
        · omega)
end

/-- The tree's maximum level occurs among the present levels. -/
theorem maxLevel_mem_presentLevels (t : HNode) : maxLevelOf t ∈ presentLevels t := by
  rw [presentLevels, List.mem_filter]
  exact ⟨List.mem_range.mpr (Nat.lt_succ_self _), decide_eq_true (countAt_maxLevel_pos t)⟩

/-- Every present level is at most the tree's maximum level. -/
theorem presentLevels_le (t : HNode) (l : Nat) (hl : l ∈ presentLevels t) :
    l ≤ maxLevelOf t := by
  rw [presentLevels, List.mem_filter] at hl
  have := List.mem_range.mp hl.1
  omega

/-- `Math.max` over the present levels is the tree's maximum level. -/
theorem foldr_presentLevels_eq_maxLevel (t : HNode) :
    (presentLevels t).foldr max 0 = maxLevelOf t :=
  le_antisymm (foldr_max_le _ _ (fun x hx => presentLevels_le t x hx))
    (le_foldr_max _ _ (maxLevel_mem_presentLevels t))

/-- C9: analyzeDepthDistribution emits exactly one flat_hierarchy warning
when the tree's maximum depth is at most 1 and more than 10 nodes sit at
depth 1, and none otherwise; and it emits an unbalanced_hierarchy warning
for every present level whose node count exceeds 3 times the count of the
immediately shallower present level. -/
theorem depth_distribution_warnings (t : HNode) :
    ((analyzeDepthDistribution t).countP (fun f => f.type == "flat_hierarchy") =
      if maxLevelOf t ≤ 1 ∧ countAtLevel t 1 > 10 then 1 else 0) ∧
    (∀ pr ∈ (presentLevels t).zip (presentLevels t).tail,
      countAtLevel t pr.2 > countAtLevel t pr.1 * 3 →
        ({ type := "unbalanced_hierarchy", level := pr.2 : Finding } ∈
          analyzeDepthDistribution t)) := by
  constructor
  · simp only [analyzeDepthDistribution]
    rw [List.countP_append, foldr_presentLevels_eq_maxLevel t]
    have hunb : (((presentLevels t).zip (presentLevels t).tail).filterMap
        (fun pr => if countAtLevel t pr.2 > countAtLevel t pr.1 * 3 then
          some ({ type := "unbalanced_hierarchy", level := pr.2 } : Finding)
        else none)).countP (fun f => f.type == "flat_hierarchy") = 0 := by
      rw [List.countP_eq_zero]
      intro f hf
      rw [List.mem_filterMap] at hf
      obtain ⟨pr, _, hpr⟩ := hf
      by_cases hc : countAtLevel t pr.2 > countAtLevel t pr.1 * 3
      · rw [if_pos hc] at hpr
        injection hpr with hpr
        rw [← hpr]
        simp
      · rw [if_neg hc] at hpr
        cases hpr
    rw [hunb]
    by_cases hcond : maxLevelOf t ≤ 1 ∧ countAtLevel t 1 > 10
    · rw [if_pos hcond, if_pos hcond]
      rfl
    · rw [if_neg hcond, if_neg hcond]
      rfl
  · intro pr hpr hc
    simp only [analyzeDepthDistribution]
    refine List.mem_append_right _ ?_
    rw [List.mem_filterMap]
    exact ⟨pr, hpr, by rw [if_pos hc]⟩

/-- A flat, four-branch tree: root at depth 0, four children all carrying
depth 1. -/
def unbalancedExampleTree : HNode :=
  HNode.mk "root.lmay" {} 0 none none
    (HNodeList.cons (HNode.mk "a.lmay" {} 1 none none HNodeList.nil)
      (HNodeList.cons (HNode.mk "b.lmay" {} 1 none none HNodeList.nil)
        (HNodeList.cons (HNode.mk "c.lmay" {} 1 none none HNodeList.nil)
          (HNodeList.cons (HNode.mk "d.lmay" {} 1 none none HNodeList.nil) HNodeList.nil))))

/-- C9 witness: on the four-branch tree, level 1 holds 4 nodes against 1 at
level 0, so one unbalanced_hierarchy warning for level 1 is present; the
flat_hierarchy count is 0 since 4 is not more than 10. -/
theorem depth_distribution_warnings_witness :
    ({ type := "unbalanced_hierarchy", level := 1 : Finding } ∈
      analyzeDepthDistribution unbalancedExampleTree) ∧
    ((analyzeDepthDistribution unbalancedExampleTree).countP
        (fun f => f.type == "flat_hierarchy") =
      if maxLevelOf unbalancedExampleTree ≤ 1 ∧
          countAtLevel unbalancedExampleTree 1 > 10 then 1 else 0) :=
  ⟨(depth_distribution_warnings unbalancedExampleTree).2 (0, 1) (by decide) (by decide),
   (depth_distribution_warnings unbalancedExampleTree).1⟩
